import Mathlib

/-!
Verification of the audio-focus arbitration core (`afml::FocusManager`), the
`SpeechSynthesizer` capability agent's context publication, and the
`TestMediaPlayer` integration stub of the AVS Device SDK.

The repository ships `AFML/FocusManager.h` and `SpeechSynthesizer.h` as
interface headers; the corresponding implementation files are not part of the
sources, so the Focus Manager's operational behaviour and the context builder
are modelled from the specification's algorithm descriptions (each such
definition carries a `Modelled from the spec:` doc comment).  The
`TestMediaPlayer` is embedded directly from `Integration/src/TestMediaPlayer.cpp`.
-/

namespace AvsDeviceSdk

/-- `avsCommon::avs::FocusState`: the focus a channel (and its observer) can
hold.  `none` < `background` < `foreground` in prominence. -/
inductive FocusState where
  | none
  | background
  | foreground
deriving DecidableEq, Repr

/-- `afml::Channel`: a named, priority-tagged arbitration slot.  Lower
`priority` number means higher priority.  Observers are identified by a `Nat`
id standing for the `ChannelObserverInterface` pointer; `activityId` is the
opaque activity tag (`Option` because it is cleared on release). -/
structure Channel where
  name : String
  priority : Nat
  focusState : FocusState := FocusState.none
  observer : Option Nat := Option.none
  activityId : Option String := Option.none
deriving DecidableEq, Repr

/-- A focus-change notification delivered to an observer:
`observer id × new focus`. -/
abbrev Notification := Nat × FocusState

/-- The FocusManager's channel registry together with per-channel dynamic
state (`m_allChannels` + the focus/observer/activity fields of each channel). -/
abbrev FocusManagerState := List Channel

/-- `FocusManager::getChannel`: find the channel with the given name. -/
def getChannel (s : FocusManagerState) (channelName : String) : Option Channel :=
  s.find? (fun c => c.name = channelName)

/-- `FocusManager::doesChannelNameExist`: true iff the name is already
associated with a created channel. -/
def doesChannelNameExist (s : FocusManagerState) (name : String) : Bool :=
  s.any (fun c => c.name = name)

/-- `FocusManager::doesChannelPriorityExist`: true iff the priority is already
associated with a created channel. -/
def doesChannelPriorityExist (s : FocusManagerState) (priority : Nat) : Bool :=
  s.any (fun c => c.priority = priority)

/-- Modelled from the spec: the `FocusManager` constructor (implementation file
absent; header documents that configurations whose name or priority already
belongs to a created channel are not created).  Channels start with no
observer, no activity id and `FocusState::NONE`. -/
def mkFocusManager (channelConfigurations : List (String × Nat)) : FocusManagerState :=
  channelConfigurations.foldl
    (fun acc cfg =>
      if doesChannelNameExist acc cfg.1 || doesChannelPriorityExist acc cfg.2 then acc
      else acc ++ [{ name := cfg.1, priority := cfg.2 }])
    []

/-- The active channels (observer set), projected to `(name, priority)`.
This is the model of `m_activeChannels`. -/
def activesOf (s : FocusManagerState) : List (String × Nat) :=
  s.filterMap (fun c => if c.observer.isSome then some (c.name, c.priority) else Option.none)

/-- Minimum of a `(name, priority)` list by priority (lower number wins);
`Option.none` on the empty list. -/
def minByPriority : List (String × Nat) → Option (String × Nat)
  | [] => Option.none
  | e :: es =>
    match minByPriority es with
    | Option.none => some e
    | some m => if e.2 ≤ m.2 then some e else some m

/-- `FocusManager::getHighestPriorityActiveChannelLocked`: the currently
foregrounded channel — the highest-priority (lowest number) active channel —
projected to `(name, priority)`. -/
def getHighestPriorityActiveChannelLocked (s : FocusManagerState) : Option (String × Nat) :=
  minByPriority (activesOf s)

/-- Update the channel with the given name (names are unique in a constructed
registry, and the update function preserves `name` at every use site). -/
def updateChannel (s : FocusManagerState) (nm : String) (f : Channel → Channel) :
    FocusManagerState :=
  s.map (fun c => if c.name = nm then f c else c)

/-- Set the focus state of the channel with the given name. -/
def setChannelFocus (s : FocusManagerState) (nm : String) (fs : FocusState) :
    FocusManagerState :=
  updateChannel s nm (fun c => { c with focusState := fs })

/-- Release a channel's dynamic state: clear the observer and the activity id
(the channel keeps no focus once unobserved). -/
def clearChannel (c : Channel) : Channel :=
  { c with observer := Option.none, activityId := Option.none,
           focusState := FocusState.none }

/-- Install a new observer and activity id on a channel. -/
def setChannelObserver (channelObserver : Nat) (activityId : String) (c : Channel) :
    Channel :=
  { c with observer := some channelObserver, activityId := some activityId }

/-- Modelled from the spec: `FocusManager::acquireChannelHelper`
(implementation file absent).  Steps, in order: (1) if the channel is already
active under a different observer, notify that observer `NONE`; (2) install the
new observer and activity id; (3) recompute the foreground channel as the
highest-priority active channel; (4) if the previously foregrounded channel is
a different one, notify its observer `BACKGROUND`; (5) notify the new
foreground channel's observer `FOREGROUND`.  Returns the new state and the
notifications in delivery order. -/
def acquireChannelHelper (s : FocusManagerState) (channelName : String)
    (channelObserver : Nat) (activityId : String) :
    FocusManagerState × List Notification :=
  match getChannel s channelName with
  | Option.none => (s, [])
  | some ch =>
    let displacedNotifs : List Notification :=
      match ch.observer with
      | some o => if o ≠ channelObserver then [(o, FocusState.none)] else []
      | Option.none => []
    let prevFg := getHighestPriorityActiveChannelLocked s
    let s1 := updateChannel s channelName (setChannelObserver channelObserver activityId)
    match getHighestPriorityActiveChannelLocked s1 with
    | Option.none => (s1, displacedNotifs)
    | some newFg =>
      let backgroundStep : FocusManagerState × List Notification :=
        match prevFg with
        | some p =>
          if p.1 ≠ newFg.1 then
            (setChannelFocus s1 p.1 FocusState.background,
             match (getChannel s p.1).bind (fun c => c.observer) with
             | some po => [(po, FocusState.background)]
             | Option.none => [])
          else (s1, [])
        | Option.none => (s1, [])
      let fgNotif : List Notification :=
        match (getChannel s1 newFg.1).bind (fun c => c.observer) with
        | some fo => [(fo, FocusState.foreground)]
        | Option.none => []
      (setChannelFocus backgroundStep.1 newFg.1 FocusState.foreground,
       displacedNotifs ++ backgroundStep.2 ++ fgNotif)

/-- `FocusManager::acquireChannel`: returns `false` synchronously when the
name is unknown; otherwise runs the helper (sequentially, on the executor) and
returns `true`.  Result: `(state, notifications, returned bool)`. -/
def acquireChannel (s : FocusManagerState) (channelName : String)
    (channelObserver : Nat) (activityId : String) :
    FocusManagerState × List Notification × Bool :=
  match getChannel s channelName with
  | Option.none => (s, [], false)
  | some _ =>
    let r := acquireChannelHelper s channelName channelObserver activityId
    (r.1, r.2, true)

/-- Modelled from the spec: `FocusManager::releaseChannelHelper`
(implementation file absent).  If the caller is not the channel's current
observer, the promise resolves `false` with no side effects.  Otherwise the
observer and activity id are cleared, the released observer is notified
`NONE`, and — when the released channel was the foreground channel — the
highest-priority remaining active channel is promoted by notifying its
observer `FOREGROUND`.  Result: `(state, notifications, promise value)`. -/
def releaseChannelHelper (s : FocusManagerState) (channelName : String)
    (channelObserver : Nat) : FocusManagerState × List Notification × Bool :=
  match getChannel s channelName with
  | Option.none => (s, [], false)
  | some ch =>
    if ch.observer ≠ some channelObserver then (s, [], false)
    else
      let wasForeground :=
        (getHighestPriorityActiveChannelLocked s).map Prod.fst = some channelName
      let s1 := updateChannel s channelName clearChannel
      let releasedNotif : List Notification := [(channelObserver, FocusState.none)]
      if wasForeground then
        match getHighestPriorityActiveChannelLocked s1 with
        | some newFg =>
          (setChannelFocus s1 newFg.1 FocusState.foreground,
           releasedNotif ++
             (match (getChannel s1 newFg.1).bind (fun c => c.observer) with
              | some fo => [(fo, FocusState.foreground)]
              | Option.none => []),
           true)
        | Option.none => (s1, releasedNotif, true)
      else (s1, releasedNotif, true)

/-- `FocusManager::releaseChannel`: the future resolves immediately with
`false` for an unknown name; otherwise the helper runs on the executor. -/
def releaseChannel (s : FocusManagerState) (channelName : String)
    (channelObserver : Nat) : FocusManagerState × List Notification × Bool :=
  match getChannel s channelName with
  | Option.none => (s, [], false)
  | some _ => releaseChannelHelper s channelName channelObserver

/-- `FocusManager::stopForegroundActivity`: snapshot the current foreground
channel's name and activity id; the returned value is the argument pair handed
to the scheduled helper (`Option.none` when no channel is foregrounded and
nothing is scheduled). -/
def stopForegroundActivity (s : FocusManagerState) : Option (String × Option String) :=
  match getHighestPriorityActiveChannelLocked s with
  | Option.none => Option.none
  | some fg => some (fg.1, (getChannel s fg.1).bind (fun c => c.activityId))

/-- Modelled from the spec: `FocusManager::stopForegroundActivityHelper`
(implementation file absent).  When it runs, possibly after interleaved
operations, it performs the release logic on the snapshotted channel — using
the channel's own current observer as the identity check — only if the
channel's activity id still equals the snapshotted one; otherwise it does
nothing. -/
def stopForegroundActivityHelper (s : FocusManagerState)
    (foregroundChannelName : String) (foregroundChannelActivityId : Option String) :
    FocusManagerState × List Notification :=
  match getChannel s foregroundChannelName with
  | Option.none => (s, [])
  | some ch =>
    if ch.activityId ≠ foregroundChannelActivityId then (s, [])
    else
      match ch.observer with
      | Option.none => (s, [])
      | some o =>
        let r := releaseChannelHelper s foregroundChannelName o
        (r.1, r.2.1)

/-- One executor-serialized Focus Manager operation.  `stopForegroundOp`
carries the snapshot arguments of the scheduled helper, so an operation
sequence covers every interleaving of scheduling and execution. -/
inductive FocusOp where
  | acquireOp (channelName : String) (channelObserver : Nat) (activityId : String)
  | releaseOp (channelName : String) (channelObserver : Nat)
  | stopForegroundOp (foregroundChannelName : String)
      (foregroundChannelActivityId : Option String)

/-- Apply one operation to the state (notifications discarded). -/
def applyFocusOp (s : FocusManagerState) : FocusOp → FocusManagerState
  | FocusOp.acquireOp nm o a => (acquireChannel s nm o a).1
  | FocusOp.releaseOp nm o => (releaseChannel s nm o).1
  | FocusOp.stopForegroundOp nm a => (stopForegroundActivityHelper s nm a).1

/-- Run a sequence of operations. -/
def runFocusOps (s : FocusManagerState) (ops : List FocusOp) : FocusManagerState :=
  ops.foldl applyFocusOp s

/-- Channel names are pairwise distinct. -/
def distinctNames (s : FocusManagerState) : Prop := (s.map Channel.name).Nodup

/-- Channel priorities are pairwise distinct. -/
def distinctPriorities (s : FocusManagerState) : Prop := (s.map Channel.priority).Nodup

/-- At most one channel holds `FocusState.foreground`. -/
def atMostOneForeground (s : FocusManagerState) : Prop :=
  s.countP (fun c => c.focusState == FocusState.foreground) ≤ 1

/-- The inductive invariant of the Focus Manager: distinct names and
priorities; a channel without observer holds no focus; every foregrounded
channel is the highest-priority active channel; and when some channel is
active, the highest-priority active channel is foregrounded. -/
def FocusInvariant (s : FocusManagerState) : Prop :=
  distinctNames s ∧ distinctPriorities s ∧
  (∀ c ∈ s, c.observer = Option.none → c.focusState = FocusState.none) ∧
  (∀ c ∈ s, c.focusState = FocusState.foreground →
    (getHighestPriorityActiveChannelLocked s).map Prod.fst = some c.name) ∧
  (∀ m, getHighestPriorityActiveChannelLocked s = some m →
    ∃ c ∈ s, c.name = m.1 ∧ c.focusState = FocusState.foreground)

/-! ### Basic lemmas about the channel registry and the priority minimum -/

lemma minByPriority_eq_none {l : List (String × Nat)}
    (h : minByPriority l = Option.none) : l = [] := by
  cases l with
  | nil => rfl
  | cons e es =>
    rw [minByPriority] at h
    cases hes : minByPriority es with
    | none => rw [hes] at h; simp at h
    | some m =>
      rw [hes] at h
      by_cases hle : e.2 ≤ m.2 <;> simp [hle] at h

lemma minByPriority_mem {l : List (String × Nat)} {m : String × Nat}
    (h : minByPriority l = some m) : m ∈ l := by
  induction l generalizing m with
  | nil => simp [minByPriority] at h
  | cons e es ih =>
    rw [minByPriority] at h
    cases hes : minByPriority es with
    | none =>
      rw [hes] at h
      simp at h
      exact List.mem_cons.mpr (Or.inl h.symm)
    | some m' =>
      rw [hes] at h
      by_cases hle : e.2 ≤ m'.2
      · simp [hle] at h
        exact List.mem_cons.mpr (Or.inl h.symm)
      · simp [hle] at h
        exact List.mem_cons_of_mem _ (ih (h ▸ hes))

lemma minByPriority_le {l : List (String × Nat)} {m : String × Nat}
    (h : minByPriority l = some m) : ∀ e ∈ l, m.2 ≤ e.2 := by
  induction l generalizing m with
  | nil => simp [minByPriority] at h
  | cons e es ih =>
    rw [minByPriority] at h
    cases hes : minByPriority es with
    | none =>
      rw [hes] at h
      simp at h
      have he2 : e.2 = m.2 := congrArg Prod.snd h
      have hnil : es = [] := minByPriority_eq_none hes
      subst hnil
      intro x hx
      rcases List.mem_cons.mp hx with rfl | hx'
      · omega
      · simp at hx'
    | some m' =>
      rw [hes] at h
      by_cases hle : e.2 ≤ m'.2
      · simp [hle] at h
        have he2 : e.2 = m.2 := congrArg Prod.snd h
        intro x hx
        rcases List.mem_cons.mp hx with rfl | hx'
        · omega
        · have := ih hes x hx'; omega
      · simp [hle] at h
        have hm2 : m'.2 = m.2 := congrArg Prod.snd h
        intro x hx
        rcases List.mem_cons.mp hx with rfl | hx'
        · omega
        · have := ih hes x hx'; omega

lemma minByPriority_ne_nil {l : List (String × Nat)} (h : l ≠ []) :
    ∃ m, minByPriority l = some m := by
  cases l with
  | nil => exact absurd rfl h
  | cons e es =>
    rw [minByPriority]
    cases minByPriority es with
    | none => exact ⟨e, rfl⟩
    | some m =>
      by_cases hle : e.2 ≤ m.2
      · exact ⟨e, by simp [hle]⟩
      · exact ⟨m, by simp [hle]⟩

lemma minByPriority_unique {l : List (String × Nat)} {m : String × Nat}
    (hnd : (l.map Prod.snd).Nodup) (hm : m ∈ l) (hle : ∀ e ∈ l, m.2 ≤ e.2) :
    minByPriority l = some m := by
  induction l with
  | nil => simp at hm
  | cons e es ih =>
    rw [minByPriority]
    rcases List.mem_cons.mp hm with rfl | hm'
    · cases hes : minByPriority es with
      | none => rfl
      | some m' =>
        have hmem := minByPriority_mem hes
        have : m.2 ≤ m'.2 := hle m' (List.mem_cons_of_mem _ hmem)
        simp [this]
    · have hndes : (es.map Prod.snd).Nodup := (List.nodup_cons.mp (by simpa using hnd)).2
      have hles : ∀ x ∈ es, m.2 ≤ x.2 := fun x hx => hle x (List.mem_cons_of_mem _ hx)
      rw [ih hndes hm' hles]
      have hme : m.2 ≤ e.2 := hle e (List.mem_cons_self e es)
      by_cases h : e.2 ≤ m.2
      · have heq : e.2 = m.2 := Nat.le_antisymm h hme
        have hmm : m.2 ∈ es.map Prod.snd := List.mem_map_of_mem Prod.snd hm'
        have : e.2 ∉ es.map Prod.snd := (List.nodup_cons.mp (by simpa using hnd)).1
        exact absurd (heq ▸ hmm) this
      · simp [h]

/-- Two lists with the same members have the same priority minimum, provided
the second has pairwise-distinct priorities. -/
lemma minByPriority_congr {l₁ l₂ : List (String × Nat)}
    (h12 : ∀ e, e ∈ l₁ ↔ e ∈ l₂) (hnd : (l₂.map Prod.snd).Nodup) :
    minByPriority l₁ = minByPriority l₂ := by
  cases h1 : minByPriority l₁ with
  | none =>
    have hl1 : l₁ = [] := by
      by_contra hne
      rcases minByPriority_ne_nil hne with ⟨m, hm⟩
      rw [hm] at h1; exact Option.noConfusion h1
    have hl2 : l₂ = [] := by
      rw [List.eq_nil_iff_forall_not_mem]
      intro a ha
      exact absurd ((h12 a).mpr ha) (by simp [hl1])
    simp [hl2, minByPriority]
  | some m =>
    have hm2 : m ∈ l₂ := (h12 m).mp (minByPriority_mem h1)
    have hle : ∀ e ∈ l₂, m.2 ≤ e.2 := fun e he =>
      minByPriority_le h1 e ((h12 e).mpr he)
    exact (minByPriority_unique hnd hm2 hle).symm

lemma getChannel_some {s : FocusManagerState} {nm : String} {ch : Channel}
    (h : getChannel s nm = some ch) : ch ∈ s ∧ ch.name = nm := by
  refine ⟨List.mem_of_find?_eq_some h, ?_⟩
  have := List.find?_some h
  simpa using this

lemma getChannel_eq_none {s : FocusManagerState} {nm : String}
    (h : getChannel s nm = Option.none) : ∀ c ∈ s, c.name ≠ nm := by
  intro c hc
  have := List.find?_eq_none.mp h c hc
  simpa using this

/-- Members of a list whose `f`-image is duplicate-free are determined by
their `f`-value. -/
lemma map_nodup_inj {α β : Type} {f : α → β} {l : List α} (hnd : (l.map f).Nodup)
    {a b : α} (ha : a ∈ l) (hb : b ∈ l) (hf : f a = f b) : a = b := by
  induction l with
  | nil => simp at ha
  | cons x xs ih =>
    have hnd' : (xs.map f).Nodup := (List.nodup_cons.mp (by simpa using hnd)).2
    have hx : f x ∉ xs.map f := (List.nodup_cons.mp (by simpa using hnd)).1
    rcases List.mem_cons.mp ha with rfl | ham
    · rcases List.mem_cons.mp hb with rfl | hbm
      · rfl
      · exact absurd (hf ▸ List.mem_map_of_mem f hbm) hx
    · rcases List.mem_cons.mp hb with rfl | hbm
      · exact absurd (hf ▸ List.mem_map_of_mem f ham) (by simpa [hf] using hx)
      · exact ih hnd' ham hbm

/-- With pairwise-distinct names, membership plus name determines the channel. -/
lemma name_unique {s : FocusManagerState} (hd : distinctNames s)
    {c c' : Channel} (hc : c ∈ s) (hc' : c' ∈ s) (h : c.name = c'.name) : c = c' :=
  map_nodup_inj hd hc hc' h

/-! ### Lemmas about `updateChannel` and `activesOf` -/

lemma mem_updateChannel {s : FocusManagerState} {nm : String} {f : Channel → Channel}
    {c' : Channel} :
    c' ∈ updateChannel s nm f ↔ ∃ c ∈ s, c' = if c.name = nm then f c else c := by
  simp only [updateChannel, List.mem_map]
  constructor
  · rintro ⟨c, hc, rfl⟩; exact ⟨c, hc, rfl⟩
  · rintro ⟨c, hc, rfl⟩; exact ⟨c, hc, rfl⟩

lemma mem_updateChannel_of_mem {s : FocusManagerState} {n : String}
    {f : Channel → Channel} {c : Channel} (hc : c ∈ s) :
    (if c.name = n then f c else c) ∈ updateChannel s n f :=
  List.mem_map_of_mem _ hc

lemma updateChannel_map_name {s : FocusManagerState} {nm : String}
    {f : Channel → Channel} (hf : ∀ c, (f c).name = c.name) :
    (updateChannel s nm f).map Channel.name = s.map Channel.name := by
  rw [updateChannel, List.map_map]
  exact List.map_congr_left (fun c _ => by by_cases h : c.name = nm <;> simp [h, hf])

lemma updateChannel_map_priority {s : FocusManagerState} {nm : String}
    {f : Channel → Channel} (hf : ∀ c, (f c).priority = c.priority) :
    (updateChannel s nm f).map Channel.priority = s.map Channel.priority := by
  rw [updateChannel, List.map_map]
  exact List.map_congr_left (fun c _ => by by_cases h : c.name = nm <;> simp [h, hf])

lemma activesOf_mem {s : FocusManagerState} {e : String × Nat} :
    e ∈ activesOf s ↔
      ∃ c ∈ s, c.name = e.1 ∧ c.priority = e.2 ∧ c.observer.isSome = true := by
  simp only [activesOf, List.mem_filterMap]
  constructor
  · rintro ⟨c, hc, hce⟩
    by_cases ho : c.observer.isSome
    · rw [if_pos ho] at hce
      have : (c.name, c.priority) = e := Option.some.inj hce
      exact ⟨c, hc, by rw [← this], by rw [← this], ho⟩
    · rw [if_neg ho] at hce; exact Option.noConfusion hce
  · rintro ⟨c, hc, h1, h2, h3⟩
    exact ⟨c, hc, by rw [if_pos h3, h1, h2]⟩

lemma activesOf_map_snd_sublist (s : FocusManagerState) :
    ((activesOf s).map Prod.snd).Sublist (s.map Channel.priority) := by
  induction s with
  | nil => simp [activesOf]
  | cons c cs ih =>
    rw [activesOf, List.filterMap_cons]
    by_cases ho : c.observer.isSome
    · rw [if_pos ho]
      simpa [activesOf] using List.Sublist.cons₂ c.priority (by simpa [activesOf] using ih)
    · rw [if_neg ho]
      simpa [activesOf] using List.Sublist.cons c.priority (by simpa [activesOf] using ih)

lemma activesOf_map_fst_sublist (s : FocusManagerState) :
    ((activesOf s).map Prod.fst).Sublist (s.map Channel.name) := by
  induction s with
  | nil => simp [activesOf]
  | cons c cs ih =>
    rw [activesOf, List.filterMap_cons]
    by_cases ho : c.observer.isSome
    · rw [if_pos ho]
      simpa [activesOf] using List.Sublist.cons₂ c.name (by simpa [activesOf] using ih)
    · rw [if_neg ho]
      simpa [activesOf] using List.Sublist.cons c.name (by simpa [activesOf] using ih)

lemma activesOf_snd_nodup {s : FocusManagerState} (h : distinctPriorities s) :
    ((activesOf s).map Prod.snd).Nodup :=
  List.Nodup.sublist (activesOf_map_snd_sublist s) h

/-- Updates that change neither name, priority nor observer leave the active
set untouched. -/
lemma activesOf_update_congr {s : FocusManagerState} {nm : String}
    {f : Channel → Channel}
    (hf : ∀ c, (f c).name = c.name ∧ (f c).priority = c.priority ∧
      (f c).observer = c.observer) :
    activesOf (updateChannel s nm f) = activesOf s := by
  induction s with
  | nil => rfl
  | cons c cs ih =>
    rcases hf c with ⟨h1, h2, h3⟩
    by_cases h : c.name = nm <;> by_cases ho : c.observer.isSome <;>
      simp [activesOf, updateChannel, List.filterMap_cons, h, ho, h1, h2, h3] at ih ⊢ <;>
      simpa using ih

lemma activesOf_setChannelFocus {s : FocusManagerState} {nm : String} {fs : FocusState} :
    activesOf (setChannelFocus s nm fs) = activesOf s :=
  activesOf_update_congr (fun _ => ⟨rfl, rfl, rfl⟩)

lemma getHighestPriority_setChannelFocus {s : FocusManagerState} {nm : String}
    {fs : FocusState} :
    getHighestPriorityActiveChannelLocked (setChannelFocus s nm fs) =
      getHighestPriorityActiveChannelLocked s := by
  rw [getHighestPriorityActiveChannelLocked, activesOf_setChannelFocus]
  rfl

/-- Clearing the observer of the channels named `nm` removes exactly their
entries from the active set. -/
lemma activesOf_clearObserver {s : FocusManagerState} {nm : String} :
    activesOf (updateChannel s nm clearChannel) =
      (activesOf s).filter (fun e => !(e.1 == nm)) := by
  induction s with
  | nil => rfl
  | cons c cs ih =>
    by_cases h : c.name = nm <;> by_cases ho : c.observer.isSome <;>
      simp [activesOf, updateChannel, clearChannel, List.filterMap_cons,
        List.filter_cons, h, ho] at ih ⊢ <;>
      simpa using ih

lemma distinctNames_updateChannel {s : FocusManagerState} {nm : String}
    {f : Channel → Channel} (hf : ∀ c, (f c).name = c.name) (h : distinctNames s) :
    distinctNames (updateChannel s nm f) := by
  rw [distinctNames, updateChannel_map_name hf]; exact h

lemma distinctPriorities_updateChannel {s : FocusManagerState} {nm : String}
    {f : Channel → Channel} (hf : ∀ c, (f c).priority = c.priority)
    (h : distinctPriorities s) : distinctPriorities (updateChannel s nm f) := by
  rw [distinctPriorities, updateChannel_map_priority hf]; exact h

/-- Membership in the active set after installing an observer on `nm`. -/
lemma activesOf_mem_setObserver {s : FocusManagerState} {nm : String} {obs : Nat}
    {aid : String} {e : String × Nat} :
    e ∈ activesOf (updateChannel s nm (setChannelObserver obs aid)) ↔
      ∃ c ∈ s, c.name = e.1 ∧ c.priority = e.2 ∧
        (c.name = nm ∨ c.observer.isSome = true) := by
  rw [activesOf_mem]
  constructor
  · rintro ⟨c', hc', h1, h2, h3⟩
    rcases mem_updateChannel.mp hc' with ⟨c, hc, rfl⟩
    by_cases h : c.name = nm
    · rw [if_pos h] at h1 h2
      exact ⟨c, hc, h1, h2, Or.inl h⟩
    · rw [if_neg h] at h1 h2 h3
      exact ⟨c, hc, h1, h2, Or.inr h3⟩
  · rintro ⟨c, hc, h1, h2, h3⟩
    refine ⟨if c.name = nm then setChannelObserver obs aid c else c,
      mem_updateChannel_of_mem hc, ?_, ?_, ?_⟩
    · by_cases h : c.name = nm
      · rw [if_pos h]; exact h1
      · rw [if_neg h]; exact h1
    · by_cases h : c.name = nm
      · rw [if_pos h]; exact h2
      · rw [if_neg h]; exact h2
    · by_cases h : c.name = nm
      · rw [if_pos h]; rfl
      · rw [if_neg h]; exact h3.resolve_left h

/-! ### Preservation of the focus invariant -/

/-- Releasing a channel that is not the foreground channel preserves the
invariant. -/
lemma focusInvariant_clear_notFg {s : FocusManagerState} {nm : String}
    (hInv : FocusInvariant s)
    (hNot : ¬ (getHighestPriorityActiveChannelLocked s).map Prod.fst = some nm) :
    FocusInvariant (updateChannel s nm clearChannel) := by
  obtain ⟨hdn, hdp, hObs, hFg, hMin⟩ := hInv
  have hdn1 : distinctNames (updateChannel s nm clearChannel) :=
    distinctNames_updateChannel (fun c => rfl) hdn
  have hdp1 : distinctPriorities (updateChannel s nm clearChannel) :=
    distinctPriorities_updateChannel (fun c => rfl) hdp
  have hAct1 : activesOf (updateChannel s nm clearChannel) =
      (activesOf s).filter (fun e => !(e.1 == nm)) := activesOf_clearObserver
  refine ⟨hdn1, hdp1, ?_, ?_, ?_⟩
  · intro c' hc' hco
    rcases mem_updateChannel.mp hc' with ⟨c, hc, rfl⟩
    by_cases h : c.name = nm
    · rw [if_pos h]; rfl
    · rw [if_neg h] at hco ⊢
      exact hObs c hc hco
  · intro c' hc' hfg'
    rcases mem_updateChannel.mp hc' with ⟨c, hc, rfl⟩
    by_cases h : c.name = nm
    · rw [if_pos h] at hfg'
      exact absurd hfg' (by simp [clearChannel])
    · rw [if_neg h] at hfg' ⊢
      have hc_eq := hFg c hc hfg'
      cases hM : getHighestPriorityActiveChannelLocked s with
      | none => rw [hM] at hc_eq; simp at hc_eq
      | some M =>
        rw [hM] at hc_eq
        simp only [Option.map_some', Option.some.injEq] at hc_eq
        have hMne : M.1 ≠ nm := by rw [hc_eq]; exact h
        have hM1 : getHighestPriorityActiveChannelLocked
            (updateChannel s nm clearChannel) = some M := by
          rw [getHighestPriorityActiveChannelLocked, hAct1]
          apply minByPriority_unique
          · exact List.Nodup.sublist ((List.filter_sublist _).map Prod.snd)
              (activesOf_snd_nodup hdp)
          · exact List.mem_filter.mpr ⟨minByPriority_mem hM, by simpa using hMne⟩
          · intro e he; exact minByPriority_le hM e (List.mem_filter.mp he).1
        rw [hM1]
        simpa using hc_eq
  · intro M hM1
    have hMem : M ∈ (activesOf s).filter (fun e => !(e.1 == nm)) := by
      rw [getHighestPriorityActiveChannelLocked, hAct1] at hM1
      exact minByPriority_mem hM1
    have hMmem : M ∈ activesOf s := (List.mem_filter.mp hMem).1
    have hMne : M.1 ≠ nm := by simpa using (List.mem_filter.mp hMem).2
    obtain ⟨M', hM'⟩ := minByPriority_ne_nil (List.ne_nil_of_mem hMmem)
    have hM'ne : M'.1 ≠ nm := by
      intro hx
      refine hNot ?_
      rw [getHighestPriorityActiveChannelLocked, hM']
      simp [hx]
    have hM'f : M' ∈ (activesOf s).filter (fun e => !(e.1 == nm)) :=
      List.mem_filter.mpr ⟨minByPriority_mem hM', by simpa using hM'ne⟩
    have h1 : M.2 ≤ M'.2 := by
      rw [getHighestPriorityActiveChannelLocked, hAct1] at hM1
      exact minByPriority_le hM1 M' hM'f
    have h2 : M'.2 ≤ M.2 := minByPriority_le hM' M hMmem
    have hMM' : M = M' :=
      map_nodup_inj (activesOf_snd_nodup hdp) hMmem (minByPriority_mem hM')
        (Nat.le_antisymm h1 h2)
    obtain ⟨c, hc, hcname, hcfg⟩ := hMin M (hMM' ▸ hM')
    have hcnm : ¬ c.name = nm := by rw [hcname]; exact hMne
    have hmem1 := mem_updateChannel_of_mem (f := clearChannel) (n := nm) hc
    rw [if_neg hcnm] at hmem1
    exact ⟨c, hmem1, hcname, hcfg⟩

/-- Releasing the foreground channel when no other channel stays active
preserves the invariant. -/
lemma focusInvariant_clear_noActive {s : FocusManagerState} {nm : String}
    (hInv : FocusInvariant s)
    (hFgnm : (getHighestPriorityActiveChannelLocked s).map Prod.fst = some nm)
    (hG1 : getHighestPriorityActiveChannelLocked (updateChannel s nm clearChannel) =
      Option.none) :
    FocusInvariant (updateChannel s nm clearChannel) := by
  obtain ⟨hdn, hdp, hObs, hFg, hMin⟩ := hInv
  refine ⟨distinctNames_updateChannel (fun c => rfl) hdn,
    distinctPriorities_updateChannel (fun c => rfl) hdp, ?_, ?_, ?_⟩
  · intro c' hc' hco
    rcases mem_updateChannel.mp hc' with ⟨c, hc, rfl⟩
    by_cases h : c.name = nm
    · rw [if_pos h]; rfl
    · rw [if_neg h] at hco ⊢
      exact hObs c hc hco
  · intro c' hc' hfg'
    rcases mem_updateChannel.mp hc' with ⟨c, hc, rfl⟩
    by_cases h : c.name = nm
    · rw [if_pos h] at hfg'
      exact absurd hfg' (by simp [clearChannel])
    · rw [if_neg h] at hfg'
      have hc_eq := hFg c hc hfg'
      rw [hc_eq] at hFgnm
      exact absurd (Option.some.inj hFgnm) h
  · intro M hM1
    rw [hG1] at hM1
    exact Option.noConfusion hM1

/-- Releasing the foreground channel and promoting the highest-priority
remaining active channel preserves the invariant. -/
lemma focusInvariant_promote {s : FocusManagerState} {nm : String}
    (hInv : FocusInvariant s)
    (hFgnm : (getHighestPriorityActiveChannelLocked s).map Prod.fst = some nm)
    {newFg : String × Nat}
    (hG1 : getHighestPriorityActiveChannelLocked (updateChannel s nm clearChannel) =
      some newFg) :
    FocusInvariant (setChannelFocus (updateChannel s nm clearChannel) newFg.1
      FocusState.foreground) := by
  obtain ⟨hdn, hdp, hObs, hFg, hMin⟩ := hInv
  have hdn1 : distinctNames (updateChannel s nm clearChannel) :=
    distinctNames_updateChannel (fun c => rfl) hdn
  have hG2 : getHighestPriorityActiveChannelLocked
      (setChannelFocus (updateChannel s nm clearChannel) newFg.1 FocusState.foreground) =
      some newFg := by rw [getHighestPriority_setChannelFocus]; exact hG1
  obtain ⟨cA, hcA, hcAname, hcAprio, hcAobs⟩ :=
    activesOf_mem.mp (minByPriority_mem hG1)
  refine ⟨distinctNames_updateChannel (fun c => rfl) hdn1,
    distinctPriorities_updateChannel (fun c => rfl)
      (distinctPriorities_updateChannel (fun c => rfl) hdp), ?_, ?_, ?_⟩
  · intro c'' hc'' hco
    rcases mem_updateChannel.mp hc'' with ⟨c', hc', rfl⟩
    by_cases h2 : c'.name = newFg.1
    · rw [if_pos h2] at hco
      have : c' = cA := name_unique hdn1 hc' hcA (h2.trans hcAname.symm)
      rw [this] at hco
      rw [hco] at hcAobs
      exact absurd hcAobs (by simp)
    · rw [if_neg h2] at hco ⊢
      rcases mem_updateChannel.mp hc' with ⟨c, hc, rfl⟩
      by_cases h : c.name = nm
      · rw [if_pos h]; rfl
      · rw [if_neg h] at hco ⊢
        exact hObs c hc hco
  · intro c'' hc'' hfg'
    rcases mem_updateChannel.mp hc'' with ⟨c', hc', rfl⟩
    by_cases h2 : c'.name = newFg.1
    · rw [if_pos h2]
      rw [hG2]
      simpa using h2.symm
    · rw [if_neg h2] at hfg' ⊢
      rcases mem_updateChannel.mp hc' with ⟨c, hc, rfl⟩
      by_cases h : c.name = nm
      · rw [if_pos h] at hfg'
        exact absurd hfg' (by simp [clearChannel])
      · rw [if_neg h] at hfg'
        have hc_eq := hFg c hc hfg'
        rw [hc_eq] at hFgnm
        exact absurd (Option.some.inj hFgnm) h
  · intro M hM
    rw [hG2] at hM
    have hMnf : M = newFg := (Option.some.inj hM).symm
    have hmem2 := mem_updateChannel_of_mem
      (f := fun c => { c with focusState := FocusState.foreground }) (n := newFg.1) hcA
    rw [if_pos hcAname] at hmem2
    refine ⟨_, hmem2, ?_, rfl⟩
    rw [hMnf]
    exact hcAname

/-- `releaseChannelHelper` preserves the focus invariant. -/
lemma focusInvariant_releaseChannelHelper {s : FocusManagerState} {nm : String}
    {obs : Nat} (hInv : FocusInvariant s) :
    FocusInvariant (releaseChannelHelper s nm obs).1 := by
  rw [releaseChannelHelper.eq_def]
  cases hch : getChannel s nm with
  | none => exact hInv
  | some ch =>
    dsimp only
    by_cases hobs : ch.observer ≠ some obs
    · rw [if_pos hobs]; exact hInv
    · rw [if_neg hobs]
      by_cases hwf : (getHighestPriorityActiveChannelLocked s).map Prod.fst = some nm
      · rw [if_pos hwf]
        cases hG1 : getHighestPriorityActiveChannelLocked (updateChannel s nm clearChannel)
          with
        | none => exact focusInvariant_clear_noActive hInv hwf hG1
        | some newFg => exact focusInvariant_promote hInv hwf hG1
      · rw [if_neg hwf]
        exact focusInvariant_clear_notFg hInv hwf

/-- Acquiring with no background step (the previously foregrounded channel, if
any, is the newly chosen foreground channel) preserves the invariant. -/
lemma focusInvariant_acquire_noBg {s : FocusManagerState} {nm : String} {obs : Nat}
    {aid : String} (hInv : FocusInvariant s)
    {newFg : String × Nat}
    (hG1 : getHighestPriorityActiveChannelLocked
      (updateChannel s nm (setChannelObserver obs aid)) = some newFg)
    (hPrev : ∀ p, getHighestPriorityActiveChannelLocked s = some p → p.1 = newFg.1) :
    FocusInvariant (setChannelFocus (updateChannel s nm (setChannelObserver obs aid))
      newFg.1 FocusState.foreground) := by
  obtain ⟨hdn, hdp, hObs, hFg, hMin⟩ := hInv
  have hdn1 : distinctNames (updateChannel s nm (setChannelObserver obs aid)) :=
    distinctNames_updateChannel (fun c => rfl) hdn
  have hG2 : getHighestPriorityActiveChannelLocked
      (setChannelFocus (updateChannel s nm (setChannelObserver obs aid)) newFg.1
        FocusState.foreground) = some newFg := by
    rw [getHighestPriority_setChannelFocus]; exact hG1
  obtain ⟨cA, hcA, hcAname, hcAprio, hcAobs⟩ :=
    activesOf_mem.mp (minByPriority_mem hG1)
  refine ⟨distinctNames_updateChannel (fun c => rfl) hdn1,
    distinctPriorities_updateChannel (fun c => rfl)
      (distinctPriorities_updateChannel (fun c => rfl) hdp), ?_, ?_, ?_⟩
  · intro c'' hc'' hco
    rcases mem_updateChannel.mp hc'' with ⟨c', hc', rfl⟩
    by_cases h2 : c'.name = newFg.1
    · rw [if_pos h2] at hco
      have : c' = cA := name_unique hdn1 hc' hcA (h2.trans hcAname.symm)
      rw [this] at hco
      rw [hco] at hcAobs
      exact absurd hcAobs (by simp)
    · rw [if_neg h2] at hco ⊢
      rcases mem_updateChannel.mp hc' with ⟨c, hc, rfl⟩
      by_cases h : c.name = nm
      · rw [if_pos h] at hco
        exact absurd hco (by simp [setChannelObserver])
      · rw [if_neg h] at hco ⊢
        exact hObs c hc hco
  · intro c'' hc'' hfg'
    rcases mem_updateChannel.mp hc'' with ⟨c', hc', rfl⟩
    by_cases h2 : c'.name = newFg.1
    · rw [if_pos h2]
      rw [hG2]
      simpa using h2.symm
    · rw [if_neg h2] at hfg' ⊢
      rcases mem_updateChannel.mp hc' with ⟨c, hc, rfl⟩
      by_cases h : c.name = nm
      · rw [if_pos h] at hfg' h2
        have hcfg : c.focusState = FocusState.foreground := hfg'
        have hc_eq := hFg c hc hcfg
        cases hP : getHighestPriorityActiveChannelLocked s with
        | none => rw [hP] at hc_eq; simp at hc_eq
        | some p =>
          rw [hP] at hc_eq
          simp only [Option.map_some', Option.some.injEq] at hc_eq
          have := hPrev p hP
          have hcnew : c.name = newFg.1 := by rw [← hc_eq, this]
          exact absurd (show (setChannelObserver obs aid c).name = newFg.1 from hcnew) h2
      · rw [if_neg h] at hfg' h2
        have hc_eq := hFg c hc hfg'
        cases hP : getHighestPriorityActiveChannelLocked s with
        | none => rw [hP] at hc_eq; simp at hc_eq
        | some p =>
          rw [hP] at hc_eq
          simp only [Option.map_some', Option.some.injEq] at hc_eq
          have := hPrev p hP
          have hcnew : c.name = newFg.1 := by rw [← hc_eq, this]
          exact absurd hcnew h2
  · intro M hM
    rw [hG2] at hM
    have hMnf : M = newFg := (Option.some.inj hM).symm
    have hmem2 := mem_updateChannel_of_mem
      (f := fun c => { c with focusState := FocusState.foreground }) (n := newFg.1) hcA
    rw [if_pos hcAname] at hmem2
    refine ⟨_, hmem2, ?_, rfl⟩
    rw [hMnf]
    exact hcAname

/-- Acquiring with a background step (the previously foregrounded channel is
demoted) preserves the invariant. -/
lemma focusInvariant_acquire_bg {s : FocusManagerState} {nm : String} {obs : Nat}
    {aid : String} (hInv : FocusInvariant s) {p newFg : String × Nat}
    (hP : getHighestPriorityActiveChannelLocked s = some p)
    (hG1 : getHighestPriorityActiveChannelLocked
      (updateChannel s nm (setChannelObserver obs aid)) = some newFg)
    (hpn : p.1 ≠ newFg.1) :
    FocusInvariant (setChannelFocus
      (setChannelFocus (updateChannel s nm (setChannelObserver obs aid)) p.1
        FocusState.background) newFg.1 FocusState.foreground) := by
  obtain ⟨hdn, hdp, hObs, hFg, hMin⟩ := hInv
  have hdn1 : distinctNames (updateChannel s nm (setChannelObserver obs aid)) :=
    distinctNames_updateChannel (fun c => rfl) hdn
  have hdn2 : distinctNames (setChannelFocus
      (updateChannel s nm (setChannelObserver obs aid)) p.1 FocusState.background) :=
    distinctNames_updateChannel (fun c => rfl) hdn1
  have hG2 : getHighestPriorityActiveChannelLocked (setChannelFocus
      (updateChannel s nm (setChannelObserver obs aid)) p.1 FocusState.background) =
      some newFg := by rw [getHighestPriority_setChannelFocus]; exact hG1
  have hG3 : getHighestPriorityActiveChannelLocked (setChannelFocus (setChannelFocus
      (updateChannel s nm (setChannelObserver obs aid)) p.1 FocusState.background)
      newFg.1 FocusState.foreground) = some newFg := by
    rw [getHighestPriority_setChannelFocus]; exact hG2
  obtain ⟨cA, hcA, hcAname, hcAprio, hcAobs⟩ :=
    activesOf_mem.mp (minByPriority_mem hG1)
  have hcAnp : ¬ cA.name = p.1 := by
    rw [hcAname]; exact fun hx => hpn hx.symm
  have hcA2 := mem_updateChannel_of_mem
    (f := fun c => { c with focusState := FocusState.background }) (n := p.1) hcA
  rw [if_neg hcAnp] at hcA2
  obtain ⟨cP, hcPs, hcPname, hcPprio, hcPobs⟩ :=
    activesOf_mem.mp (minByPriority_mem hP)
  have hpAct1 : p ∈ activesOf (updateChannel s nm (setChannelObserver obs aid)) :=
    activesOf_mem_setObserver.mpr ⟨cP, hcPs, hcPname, hcPprio, Or.inr hcPobs⟩
  obtain ⟨cB, hcB1, hcBname, hcBprio, hcBobs⟩ := activesOf_mem.mp hpAct1
  refine ⟨distinctNames_updateChannel (fun c => rfl) hdn2,
    distinctPriorities_updateChannel (fun c => rfl)
      (distinctPriorities_updateChannel (fun c => rfl)
        (distinctPriorities_updateChannel (fun c => rfl) hdp)), ?_, ?_, ?_⟩
  · intro c''' hmem hco
    rcases mem_updateChannel.mp hmem with ⟨c'', hc''2, rfl⟩
    by_cases h3 : c''.name = newFg.1
    · rw [if_pos h3] at hco
      have : c'' = cA := name_unique hdn2 hc''2 hcA2 (h3.trans hcAname.symm)
      rw [this] at hco
      rw [hco] at hcAobs
      exact absurd hcAobs (by simp)
    · rw [if_neg h3] at hco ⊢
      rcases mem_updateChannel.mp hc''2 with ⟨c', hc'1, rfl⟩
      by_cases h2 : c'.name = p.1
      · rw [if_pos h2] at hco
        have : c' = cB := name_unique hdn1 hc'1 hcB1 (h2.trans hcBname.symm)
        rw [this] at hco
        rw [hco] at hcBobs
        exact absurd hcBobs (by simp)
      · rw [if_neg h2] at hco ⊢
        rcases mem_updateChannel.mp hc'1 with ⟨c, hcs, rfl⟩
        by_cases h1 : c.name = nm
        · rw [if_pos h1] at hco
          exact absurd hco (by simp [setChannelObserver])
        · rw [if_neg h1] at hco ⊢
          exact hObs c hcs hco
  · intro c''' hmem hfg3
    rcases mem_updateChannel.mp hmem with ⟨c'', hc''2, rfl⟩
    by_cases h3 : c''.name = newFg.1
    · rw [if_pos h3]
      rw [hG3]
      simpa using h3.symm
    · rw [if_neg h3] at hfg3 ⊢
      rcases mem_updateChannel.mp hc''2 with ⟨c', hc'1, rfl⟩
      by_cases h2 : c'.name = p.1
      · rw [if_pos h2] at hfg3
        exact absurd hfg3 (by simp)
      · rw [if_neg h2] at hfg3 ⊢
        rcases mem_updateChannel.mp hc'1 with ⟨c, hcs, rfl⟩
        by_cases h1 : c.name = nm
        · rw [if_pos h1] at hfg3 h2
          have hcfg : c.focusState = FocusState.foreground := hfg3
          have hc_eq := hFg c hcs hcfg
          rw [hP] at hc_eq
          simp only [Option.map_some', Option.some.injEq] at hc_eq
          exact absurd (show (setChannelObserver obs aid c).name = p.1 from hc_eq.symm) h2
        · rw [if_neg h1] at hfg3 h2
          have hc_eq := hFg c hcs hfg3
          rw [hP] at hc_eq
          simp only [Option.map_some', Option.some.injEq] at hc_eq
          exact absurd hc_eq.symm h2
  · intro M hM
    rw [hG3] at hM
    have hMnf : M = newFg := (Option.some.inj hM).symm
    have hmem3 := mem_updateChannel_of_mem
      (f := fun c => { c with focusState := FocusState.foreground }) (n := newFg.1) hcA2
    rw [if_pos hcAname] at hmem3
    refine ⟨_, hmem3, ?_, rfl⟩
    rw [hMnf]
    exact hcAname

/-- `acquireChannelHelper` preserves the focus invariant. -/
lemma focusInvariant_acquireChannelHelper {s : FocusManagerState} {nm : String}
    {obs : Nat} {aid : String} (hInv : FocusInvariant s) :
    FocusInvariant (acquireChannelHelper s nm obs aid).1 := by
  rw [acquireChannelHelper.eq_def]
  cases hch : getChannel s nm with
  | none => exact hInv
  | some ch =>
    dsimp only
    obtain ⟨hchm, hchn⟩ := getChannel_some hch
    have hact : (nm, ch.priority) ∈
        activesOf (updateChannel s nm (setChannelObserver obs aid)) :=
      activesOf_mem_setObserver.mpr ⟨ch, hchm, hchn, rfl, Or.inl hchn⟩
    obtain ⟨newFg, hG1p⟩ := minByPriority_ne_nil (List.ne_nil_of_mem hact)
    have hG1 : getHighestPriorityActiveChannelLocked
        (updateChannel s nm (setChannelObserver obs aid)) = some newFg := hG1p
    rw [hG1]
    dsimp only
    cases hP : getHighestPriorityActiveChannelLocked s with
    | none =>
      dsimp only
      refine focusInvariant_acquire_noBg ⟨?_, ?_, ?_, ?_, ?_⟩ hG1 ?_
      · exact hInv.1
      · exact hInv.2.1
      · exact hInv.2.2.1
      · exact hInv.2.2.2.1
      · exact hInv.2.2.2.2
      · intro q hq
        rw [hP] at hq
        exact Option.noConfusion hq
    | some p =>
      dsimp only
      by_cases hpn : p.1 ≠ newFg.1
      · rw [if_pos hpn]
        dsimp only
        exact focusInvariant_acquire_bg hInv hP hG1 hpn
      · rw [if_neg hpn]
        dsimp only
        push_neg at hpn
        refine focusInvariant_acquire_noBg hInv hG1 ?_
        intro q hq
        rw [hP] at hq
        rw [← Option.some.inj hq]
        exact hpn

/-- `stopForegroundActivityHelper` preserves the focus invariant. -/
lemma focusInvariant_stopForegroundActivityHelper {s : FocusManagerState}
    {nm : String} {aid : Option String} (hInv : FocusInvariant s) :
    FocusInvariant (stopForegroundActivityHelper s nm aid).1 := by
  rw [stopForegroundActivityHelper.eq_def]
  cases hch : getChannel s nm with
  | none => exact hInv
  | some ch =>
    dsimp only
    by_cases hid : ch.activityId ≠ aid
    · rw [if_pos hid]; exact hInv
    · rw [if_neg hid]
      cases ho : ch.observer with
      | none => exact hInv
      | some o =>
        dsimp only
        exact focusInvariant_releaseChannelHelper hInv

/-- Every executor-serialized operation preserves the focus invariant. -/
lemma focusInvariant_applyFocusOp {s : FocusManagerState} (op : FocusOp)
    (hInv : FocusInvariant s) : FocusInvariant (applyFocusOp s op) := by
  cases op with
  | acquireOp nm o a =>
    rw [applyFocusOp, acquireChannel.eq_def]
    cases hch : getChannel s nm with
    | none => exact hInv
    | some ch =>
      dsimp only
      exact focusInvariant_acquireChannelHelper hInv
  | releaseOp nm o =>
    rw [applyFocusOp, releaseChannel.eq_def]
    cases hch : getChannel s nm with
    | none => exact hInv
    | some ch =>
      dsimp only
      exact focusInvariant_releaseChannelHelper hInv
  | stopForegroundOp nm a =>
    rw [applyFocusOp]
    exact focusInvariant_stopForegroundActivityHelper hInv

/-- Operation sequences preserve the focus invariant. -/
lemma focusInvariant_runFocusOps {s : FocusManagerState} (hInv : FocusInvariant s)
    (ops : List FocusOp) : FocusInvariant (runFocusOps s ops) := by
  induction ops generalizing s with
  | nil => exact hInv
  | cons op rest ih =>
    rw [runFocusOps, List.foldl_cons]
    exact ih (focusInvariant_applyFocusOp op hInv)

/-- The constructed registry: distinct names, distinct priorities, and all
channels start unobserved and unfocused. -/
lemma mkFocusManager_aux (cfgs : List (String × Nat)) (acc : FocusManagerState)
    (hdn : distinctNames acc) (hdp : distinctPriorities acc)
    (hinit : ∀ c ∈ acc, c.observer = Option.none ∧ c.focusState = FocusState.none) :
    distinctNames (cfgs.foldl
      (fun acc cfg =>
        if doesChannelNameExist acc cfg.1 || doesChannelPriorityExist acc cfg.2 then acc
        else acc ++ [{ name := cfg.1, priority := cfg.2 }]) acc) ∧
    distinctPriorities (cfgs.foldl
      (fun acc cfg =>
        if doesChannelNameExist acc cfg.1 || doesChannelPriorityExist acc cfg.2 then acc
        else acc ++ [{ name := cfg.1, priority := cfg.2 }]) acc) ∧
    ∀ c ∈ (cfgs.foldl
      (fun acc cfg =>
        if doesChannelNameExist acc cfg.1 || doesChannelPriorityExist acc cfg.2 then acc
        else acc ++ [{ name := cfg.1, priority := cfg.2 }]) acc),
      c.observer = Option.none ∧ c.focusState = FocusState.none := by
  induction cfgs generalizing acc with
  | nil => exact ⟨hdn, hdp, hinit⟩
  | cons cfg rest ih =>
    rw [List.foldl_cons]
    by_cases h : doesChannelNameExist acc cfg.1 || doesChannelPriorityExist acc cfg.2
    · rw [if_pos h]
      exact ih acc hdn hdp hinit
    · rw [if_neg h]
      have hfalse : (doesChannelNameExist acc cfg.1 ||
          doesChannelPriorityExist acc cfg.2) = false := Bool.eq_false_iff.mpr h
      obtain ⟨hf1, hf2⟩ := Bool.or_eq_false_iff.mp hfalse
      have hnm : ∀ c ∈ acc, ¬ (c.name = cfg.1) := by
        intro c hc
        have := List.any_eq_false.mp hf1 c hc
        simpa using this
      have hpr : ∀ c ∈ acc, ¬ (c.priority = cfg.2) := by
        intro c hc
        have := List.any_eq_false.mp hf2 c hc
        simpa using this
      refine ih _ ?_ ?_ ?_
      · rw [distinctNames, List.map_append, List.nodup_append]
        refine ⟨hdn, by simp, ?_⟩
        intro x hx hy
        simp only [List.map_cons, List.map_nil, List.mem_singleton] at hy
        rcases List.mem_map.mp hx with ⟨c, hc, rfl⟩
        exact hnm c hc hy
      · rw [distinctPriorities, List.map_append, List.nodup_append]
        refine ⟨hdp, by simp, ?_⟩
        intro x hx hy
        simp only [List.map_cons, List.map_nil, List.mem_singleton] at hy
        rcases List.mem_map.mp hx with ⟨c, hc, rfl⟩
        exact hpr c hc hy
      · intro c hc
        rcases List.mem_append.mp hc with hc1 | hc2
        · exact hinit c hc1
        · simp only [List.mem_singleton] at hc2
          rw [hc2]
          exact ⟨rfl, rfl⟩

/-- The freshly constructed Focus Manager satisfies the invariant. -/
lemma focusInvariant_mkFocusManager (cfgs : List (String × Nat)) :
    FocusInvariant (mkFocusManager cfgs) := by
  obtain ⟨hdn, hdp, hinit⟩ :=
    mkFocusManager_aux cfgs [] (by simp [distinctNames]) (by simp [distinctPriorities])
      (by intro c hc; simp at hc)
  refine ⟨hdn, hdp, ?_, ?_, ?_⟩
  · exact fun c hc _ => (hinit c hc).2
  · intro c hc hfg
    rw [(hinit c hc).2] at hfg
    exact absurd hfg (by simp)
  · intro M hM
    have hMem := minByPriority_mem hM
    obtain ⟨c, hc, _, _, hobs⟩ := activesOf_mem.mp hMem
    rw [(hinit c hc).1] at hobs
    exact absurd hobs (by simp)

lemma countP_foreground_le_one {s : FocusManagerState} {N : String}
    (hdn : distinctNames s)
    (hall : ∀ c ∈ s, c.focusState = FocusState.foreground → c.name = N) :
    s.countP (fun c => c.focusState == FocusState.foreground) ≤ 1 := by
  induction s with
  | nil => simp
  | cons c cs ih =>
    have hdn' : distinctNames cs :=
      (List.nodup_cons.mp (by simpa [distinctNames] using hdn)).2
    have hcnot : c.name ∉ cs.map Channel.name :=
      (List.nodup_cons.mp (by simpa [distinctNames] using hdn)).1
    by_cases hc : c.focusState = FocusState.foreground
    · have hzero : cs.countP (fun c => c.focusState == FocusState.foreground) = 0 := by
        rw [List.countP_eq_zero]
        intro x hx hxfg
        have hxn : x.name = N :=
          hall x (List.mem_cons_of_mem _ hx) (by simpa using hxfg)
        have hcn : c.name = N := hall c (List.mem_cons_self _ _) hc
        exact hcnot ((hcn.trans hxn.symm) ▸ List.mem_map_of_mem Channel.name hx)
      rw [List.countP_cons, hzero]
      simp [hc]
    · rw [List.countP_cons]
      have : (c.focusState == FocusState.foreground) = false := by simpa using hc
      rw [this]
      simpa using ih hdn' (fun x hx hfg => hall x (List.mem_cons_of_mem _ hx) hfg)

/-- The focus invariant entails that at most one channel is foregrounded. -/
lemma atMostOneForeground_of_invariant {s : FocusManagerState}
    (hInv : FocusInvariant s) : atMostOneForeground s := by
  obtain ⟨hdn, hdp, hObs, hFg, hMin⟩ := hInv
  rw [atMostOneForeground]
  cases hM : getHighestPriorityActiveChannelLocked s with
  | none =>
    have hzero : s.countP (fun c => c.focusState == FocusState.foreground) = 0 := by
      rw [List.countP_eq_zero]
      intro x hx hxfg
      have := hFg x hx (by simpa using hxfg)
      rw [hM] at this
      simp at this
    rw [hzero]; omega
  | some M =>
    refine countP_foreground_le_one (N := M.1) hdn ?_
    intro c hc hfg
    have := hFg c hc hfg
    rw [hM] at this
    simpa using this.symm

/-- With pairwise-distinct names, `getChannel` retrieves exactly the member
with that name. -/
lemma getChannel_of_mem {s : FocusManagerState} (hdn : distinctNames s)
    {c : Channel} (hc : c ∈ s) : getChannel s c.name = some c := by
  induction s with
  | nil => simp at hc
  | cons x xs ih =>
    have hdn' : distinctNames xs :=
      (List.nodup_cons.mp (by simpa [distinctNames] using hdn)).2
    have hx : x.name ∉ xs.map Channel.name :=
      (List.nodup_cons.mp (by simpa [distinctNames] using hdn)).1
    rcases List.mem_cons.mp hc with rfl | hcm
    · rw [getChannel]
      rw [List.find?_cons_of_pos]
      simp
    · rw [getChannel, List.find?_cons_of_neg]
      · exact ih hdn' hcm
      · simp only [decide_eq_true_eq]
        intro heq
        exact hx (heq ▸ List.mem_map_of_mem Channel.name hcm)

/-! ### Claim theorems -/

/-- C1: for every sequence of `acquireChannel`, `releaseChannel` and
`stopForegroundActivity` operations on a constructed FocusManager, at every
point between operations at most one channel has `FocusState.foreground`. -/
theorem focusManager_at_most_one_foreground
    (configs : List (String × Nat)) (ops : List FocusOp) :
    atMostOneForeground (runFocusOps (mkFocusManager configs) ops) :=
  atMostOneForeground_of_invariant
    (focusInvariant_runFocusOps (focusInvariant_mkFocusManager configs) ops)

/-- C5: for a channel name not present in the registry, `acquireChannel`
returns `false` synchronously and `releaseChannel` resolves its future
immediately with `false`; in both cases the state is unchanged and no observer
is notified. -/
theorem unknown_channel_no_effect {s : FocusManagerState} {nm : String}
    {obs : Nat} {aid : String} (h : getChannel s nm = Option.none) :
    acquireChannel s nm obs aid = (s, [], false) ∧
    releaseChannel s nm obs = (s, [], false) := by
  rw [acquireChannel.eq_def, releaseChannel.eq_def, h]
  exact ⟨rfl, rfl⟩

/-- Witness for C5 at a concrete registry and unknown name. -/
theorem unknown_channel_no_effect_witness :
    getChannel (mkFocusManager [("Dialog", 100)]) "Content" = Option.none ∧
    acquireChannel (mkFocusManager [("Dialog", 100)]) "Content" 7 "act" =
      (mkFocusManager [("Dialog", 100)], [], false) ∧
    releaseChannel (mkFocusManager [("Dialog", 100)]) "Content" 7 =
      (mkFocusManager [("Dialog", 100)], [], false) :=
  ⟨by decide,
   (@unknown_channel_no_effect (mkFocusManager [("Dialog", 100)]) "Content" 7 "act"
     (by decide)).1,
   (@unknown_channel_no_effect (mkFocusManager [("Dialog", 100)]) "Content" 7 "act"
     (by decide)).2⟩

/-- C7: the scheduled stop-foreground helper is guarded by the snapshotted
activity id: when the channel's activity id at helper-execution time differs
from the snapshot, the helper changes no state and sends no notification;
when it still matches and the channel has an observer, the helper performs
exactly the release logic with the channel's own observer. -/
theorem stopForegroundActivityHelper_guard {t : FocusManagerState} {nm : String}
    {snapAid : Option String} {ch : Channel} (hch : getChannel t nm = some ch) :
    (ch.activityId ≠ snapAid → stopForegroundActivityHelper t nm snapAid = (t, [])) ∧
    (ch.activityId = snapAid → ∀ o, ch.observer = some o →
      stopForegroundActivityHelper t nm snapAid =
        ((releaseChannelHelper t nm o).1, (releaseChannelHelper t nm o).2.1)) := by
  rw [stopForegroundActivityHelper.eq_def, hch]
  dsimp only
  constructor
  · intro hne
    rw [if_pos hne]
  · intro heq o ho
    rw [if_neg (by simpa using heq), ho]

/-- Witness for C7: after `Dialog` is re-acquired with activity id `"B"`, the
helper scheduled with snapshot `"A"` does nothing, while a helper holding the
current id `"B"` performs the release. -/
theorem stopForegroundActivityHelper_guard_witness :
    getChannel (acquireChannel (mkFocusManager [("Dialog", 100)]) "Dialog" 1 "B").1
        "Dialog" =
      some { name := "Dialog", priority := 100,
             focusState := FocusState.foreground, observer := some 1,
             activityId := some "B" } ∧
    stopForegroundActivityHelper
        (acquireChannel (mkFocusManager [("Dialog", 100)]) "Dialog" 1 "B").1
        "Dialog" (some "A") =
      ((acquireChannel (mkFocusManager [("Dialog", 100)]) "Dialog" 1 "B").1, []) :=
  ⟨by decide,
   (@stopForegroundActivityHelper_guard
      (acquireChannel (mkFocusManager [("Dialog", 100)]) "Dialog" 1 "B").1
      "Dialog" (some "A")
      { name := "Dialog", priority := 100,
        focusState := FocusState.foreground, observer := some 1,
        activityId := some "B" }
      (by decide)).1 (by decide)⟩

/-- C8 counterexample: in the configuration
`[("A", 1), ("A", 2), ("B", 2)]` the entry `("B", 2)` shares its priority with
the earlier entry `("A", 2)`, yet a channel named `B` is created (the earlier
duplicate was itself discarded, so priority `2` is free again). -/
theorem mkFocusManager_later_shared_priority_still_created :
    (mkFocusManager [("A", 1), ("A", 2), ("B", 2)]).map
        (fun c => (c.name, c.priority)) = [("A", 1), ("B", 2)] ∧
    doesChannelNameExist (mkFocusManager [("A", 1), ("A", 2), ("B", 2)]) "B" = true :=
  by decide

/-- C8 (amended): an entry is discarded exactly when its name or priority
already belongs to a previously created channel; consequently the registry has
pairwise-distinct names and pairwise-distinct priorities. -/
theorem mkFocusManager_distinct (configs : List (String × Nat)) :
    distinctNames (mkFocusManager configs) ∧
    distinctPriorities (mkFocusManager configs) := by
  obtain ⟨h1, h2, _⟩ :=
    mkFocusManager_aux configs [] (by simp [distinctNames])
      (by simp [distinctPriorities]) (by intro c hc; simp at hc)
  exact ⟨h1, h2⟩

/-- C2: an acquire delivers the new-foreground notification last: the
notification list of `acquireChannelHelper` is a prefix of displaced (`NONE`)
and backgrounded (`BACKGROUND`) notifications followed by exactly one
`FOREGROUND` notification to the observer of the newly chosen foreground
channel. -/
theorem acquire_notifies_displaced_before_foreground {s : FocusManagerState}
    {nm : String} {obs : Nat} {aid : String} {ch : Channel}
    (hdn : distinctNames s) (hch : getChannel s nm = some ch) :
    ∃ pre newFg o,
      getHighestPriorityActiveChannelLocked
        (updateChannel s nm (setChannelObserver obs aid)) = some newFg ∧
      (getChannel (updateChannel s nm (setChannelObserver obs aid)) newFg.1).bind
        (fun c => c.observer) = some o ∧
      (acquireChannelHelper s nm obs aid).2 = pre ++ [(o, FocusState.foreground)] ∧
      ∀ n ∈ pre, n.2 = FocusState.none ∨ n.2 = FocusState.background := by
  obtain ⟨hchm, hchn⟩ := getChannel_some hch
  have hdn1 : distinctNames (updateChannel s nm (setChannelObserver obs aid)) :=
    distinctNames_updateChannel (fun _ => rfl) hdn
  have hact : (nm, ch.priority) ∈
      activesOf (updateChannel s nm (setChannelObserver obs aid)) :=
    activesOf_mem_setObserver.mpr ⟨ch, hchm, hchn, rfl, Or.inl hchn⟩
  obtain ⟨newFg, hG1p⟩ := minByPriority_ne_nil (List.ne_nil_of_mem hact)
  have hG1 : getHighestPriorityActiveChannelLocked
      (updateChannel s nm (setChannelObserver obs aid)) = some newFg := hG1p
  obtain ⟨cA, hcA, hcAname, hcAprio, hcAobs⟩ :=
    activesOf_mem.mp (minByPriority_mem hG1)
  obtain ⟨o, ho⟩ := Option.isSome_iff_exists.mp hcAobs
  have hgetA : getChannel (updateChannel s nm (setChannelObserver obs aid)) newFg.1 =
      some cA := by
    have h0 := getChannel_of_mem hdn1 hcA
    rw [hcAname] at h0
    exact h0
  have hbind : (getChannel (updateChannel s nm (setChannelObserver obs aid))
      newFg.1).bind (fun c => c.observer) = some o := by
    rw [hgetA]; simpa using ho
  have hnot : (acquireChannelHelper s nm obs aid).2 =
      ((match ch.observer with
        | some o' => if o' ≠ obs then [(o', FocusState.none)] else []
        | Option.none => []) ++
       (match getHighestPriorityActiveChannelLocked s with
        | some p =>
          if p.1 ≠ newFg.1 then
            (match (getChannel s p.1).bind (fun c => c.observer) with
             | some po => [(po, FocusState.background)]
             | Option.none => [])
          else []
        | Option.none => [])) ++ [(o, FocusState.foreground)] := by
    rw [acquireChannelHelper.eq_def, hch]
    dsimp only
    rw [hG1]
    dsimp only
    rw [hbind]
    cases hP : getHighestPriorityActiveChannelLocked s with
    | none => rfl
    | some p =>
      dsimp only
      by_cases hpn : p.1 ≠ newFg.1
      · simp only [if_pos hpn]
      · simp only [if_neg hpn]
  refine ⟨_, newFg, o, hG1, hbind, hnot, ?_⟩
  intro n hn
  rcases List.mem_append.mp hn with h | h
  · cases hco : ch.observer with
    | none => rw [hco] at h; simp at h
    | some o' =>
      rw [hco] at h
      by_cases ho' : o' ≠ obs
      · simp [ho'] at h
        rw [h]
        exact Or.inl rfl
      · push_neg at ho'
        simp [ho'] at h
  · cases hP : getHighestPriorityActiveChannelLocked s with
    | none => rw [hP] at h; simp at h
    | some p =>
      rw [hP] at h
      by_cases hpn : p.1 ≠ newFg.1
      · simp [hpn] at h
        cases hpo : (getChannel s p.1).bind (fun c => c.observer) with
        | none => rw [hpo] at h; simp at h
        | some po =>
          rw [hpo] at h
          simp at h
          rw [h]
          exact Or.inr rfl
      · push_neg at hpn
        simp [hpn] at h

/-- C6: releasing a channel whose focus state is not Foreground leaves every
other channel's full record (focus state, observer, activity id) unchanged. -/
theorem release_nonforeground_frame {s : FocusManagerState} {nm : String}
    {obs : Nat} {ch : Channel} (hInv : FocusInvariant s)
    (hch : getChannel s nm = some ch)
    (hnfg : ch.focusState ≠ FocusState.foreground) :
    ∀ c ∈ s, c.name ≠ nm → getChannel (releaseChannel s nm obs).1 c.name = some c := by
  obtain ⟨hdn, hdp, hObs, hFg, hMin⟩ := hInv
  obtain ⟨hchm, hchn⟩ := getChannel_some hch
  have hdn1 : distinctNames (updateChannel s nm clearChannel) :=
    distinctNames_updateChannel (fun _ => rfl) hdn
  have hnwf : ¬ (getHighestPriorityActiveChannelLocked s).map Prod.fst = some nm := by
    intro hwf
    cases hM : getHighestPriorityActiveChannelLocked s with
    | none => rw [hM] at hwf; simp at hwf
    | some M =>
      rw [hM] at hwf
      simp only [Option.map_some', Option.some.injEq] at hwf
      obtain ⟨cF, hcF, hcFname, hcFfg⟩ := hMin M hM
      have : cF = ch := name_unique hdn hcF hchm (by rw [hcFname, hwf, hchn])
      rw [this] at hcFfg
      exact hnfg hcFfg
  intro c hc hcnm
  rw [releaseChannel.eq_def, hch]
  dsimp only
  rw [releaseChannelHelper.eq_def, hch]
  dsimp only
  by_cases hobs : ch.observer ≠ some obs
  · rw [if_pos hobs]
    exact getChannel_of_mem hdn hc
  · rw [if_neg hobs]
    rw [if_neg hnwf]
    have hmem1 := mem_updateChannel_of_mem (f := clearChannel) (n := nm) hc
    rw [if_neg hcnm] at hmem1
    exact getChannel_of_mem hdn1 hmem1

/-- C4: `releaseChannel` on a known channel resolves `true` exactly when the
caller's observer is the channel's current observer; on a match the channel's
observer and activity id are cleared and the released observer is notified
`NONE`; on a mismatch the state is unchanged and nothing is notified. -/
theorem release_matches_observer {s : FocusManagerState} {nm : String} {obs : Nat}
    {ch : Channel} (hdn : distinctNames s) (hch : getChannel s nm = some ch) :
    ((releaseChannel s nm obs).2.2 = true ↔ ch.observer = some obs) ∧
    (ch.observer = some obs →
      (∃ c', getChannel (releaseChannel s nm obs).1 nm = some c' ∧
        c'.observer = Option.none ∧ c'.activityId = Option.none) ∧
      (obs, FocusState.none) ∈ (releaseChannel s nm obs).2.1) ∧
    (ch.observer ≠ some obs →
      (releaseChannel s nm obs).1 = s ∧ (releaseChannel s nm obs).2.1 = []) := by
  obtain ⟨hchm, hchn⟩ := getChannel_some hch
  have hdn1 : distinctNames (updateChannel s nm clearChannel) :=
    distinctNames_updateChannel (fun _ => rfl) hdn
  have hclmem : clearChannel ch ∈ updateChannel s nm clearChannel := by
    have h0 := mem_updateChannel_of_mem (f := clearChannel) (n := nm) hchm
    rw [if_pos hchn] at h0
    exact h0
  have hclname : (clearChannel ch).name = nm := hchn
  rw [releaseChannel.eq_def, hch]
  dsimp only
  rw [releaseChannelHelper.eq_def, hch]
  dsimp only
  by_cases hobs : ch.observer ≠ some obs
  · rw [if_pos hobs]
    refine ⟨⟨fun hx => by simp at hx, fun hx => absurd hx hobs⟩,
      fun hx => absurd hx hobs, fun _ => ⟨rfl, rfl⟩⟩
  · rw [if_neg hobs]
    push_neg at hobs
    by_cases hwf : (getHighestPriorityActiveChannelLocked s).map Prod.fst = some nm
    · rw [if_pos hwf]
      cases hG1 : getHighestPriorityActiveChannelLocked (updateChannel s nm clearChannel)
        with
      | none =>
        dsimp only
        refine ⟨by simp [hobs], fun _ => ⟨⟨clearChannel ch, ?_, rfl, rfl⟩, by simp⟩,
          fun hx => absurd hobs hx⟩
        have h0 := getChannel_of_mem hdn1 hclmem
        rw [hclname] at h0
        exact h0
      | some newFg =>
        dsimp only
        have hnf : newFg.1 ≠ nm := by
          rw [getHighestPriorityActiveChannelLocked, activesOf_clearObserver] at hG1
          have := List.mem_filter.mp (minByPriority_mem hG1)
          simpa using this.2
        have hdn2 : distinctNames (setChannelFocus (updateChannel s nm clearChannel)
            newFg.1 FocusState.foreground) :=
          distinctNames_updateChannel (fun _ => rfl) hdn1
        refine ⟨by simp [hobs], fun _ => ⟨⟨clearChannel ch, ?_, rfl, rfl⟩, by simp⟩,
          fun hx => absurd hobs hx⟩
        have hmem2 := mem_updateChannel_of_mem
          (f := fun c => { c with focusState := FocusState.foreground })
          (n := newFg.1) hclmem
        rw [if_neg (by rw [hclname]; exact fun hx => hnf hx.symm)] at hmem2
        have h0 := getChannel_of_mem hdn2 hmem2
        rw [hclname] at h0
        exact h0
    · rw [if_neg hwf]
      refine ⟨by simp [hobs], fun _ => ⟨⟨clearChannel ch, ?_, rfl, rfl⟩, by simp⟩,
        fun hx => absurd hobs hx⟩
      have h0 := getChannel_of_mem hdn1 hclmem
      rw [hclname] at h0
      exact h0

/-- C3: releasing the foreground channel promotes the highest-priority
remaining active channel, whose record becomes Foreground and whose observer
is notified `FOREGROUND`; when no channel remains active, no channel is
Foreground afterwards. -/
theorem release_foreground_promotes {s : FocusManagerState} {nm : String}
    {obs : Nat} {ch : Channel} (hInv : FocusInvariant s)
    (hch : getChannel s nm = some ch) (hobs : ch.observer = some obs)
    (hfg : (getHighestPriorityActiveChannelLocked s).map Prod.fst = some nm) :
    (∀ newFg, getHighestPriorityActiveChannelLocked (updateChannel s nm clearChannel)
        = some newFg →
      ∃ cA, getChannel (releaseChannel s nm obs).1 newFg.1 = some cA ∧
        cA.focusState = FocusState.foreground ∧
        ∃ o, cA.observer = some o ∧
          (o, FocusState.foreground) ∈ (releaseChannel s nm obs).2.1) ∧
    (getHighestPriorityActiveChannelLocked (updateChannel s nm clearChannel) =
        Option.none →
      ∀ c ∈ (releaseChannel s nm obs).1, c.focusState ≠ FocusState.foreground) := by
  obtain ⟨hdn, hdp, hObs, hFg, hMin⟩ := hInv
  obtain ⟨hchm, hchn⟩ := getChannel_some hch
  have hdn1 : distinctNames (updateChannel s nm clearChannel) :=
    distinctNames_updateChannel (fun _ => rfl) hdn
  rw [releaseChannel.eq_def, hch]
  dsimp only
  rw [releaseChannelHelper.eq_def, hch]
  dsimp only
  rw [if_neg (by simp [hobs]), if_pos hfg]
  constructor
  · intro newFg hG1
    rw [hG1]
    dsimp only
    obtain ⟨cB, hcB, hcBname, hcBprio, hcBobs⟩ :=
      activesOf_mem.mp (minByPriority_mem hG1)
    obtain ⟨o, ho⟩ := Option.isSome_iff_exists.mp hcBobs
    have hgetB : getChannel (updateChannel s nm clearChannel) newFg.1 = some cB := by
      have h0 := getChannel_of_mem hdn1 hcB
      rw [hcBname] at h0
      exact h0
    have hdn2 : distinctNames (setChannelFocus (updateChannel s nm clearChannel)
        newFg.1 FocusState.foreground) :=
      distinctNames_updateChannel (fun _ => rfl) hdn1
    have hmem2 := mem_updateChannel_of_mem
      (f := fun c => { c with focusState := FocusState.foreground })
      (n := newFg.1) hcB
    rw [if_pos hcBname] at hmem2
    refine ⟨{ cB with focusState := FocusState.foreground }, ?_, rfl, o, ho, ?_⟩
    · have h0 := getChannel_of_mem hdn2 hmem2
      rw [show ({ cB with focusState := FocusState.foreground } : Channel).name =
        newFg.1 from hcBname] at h0
      exact h0
    · have hbindB : (getChannel (updateChannel s nm clearChannel) newFg.1).bind
          (fun c => c.observer) = some o := by
        rw [hgetB]; simpa using ho
      rw [hbindB]
      simp
  · intro hG1
    rw [hG1]
    dsimp only
    intro c hcmem
    rcases mem_updateChannel.mp hcmem with ⟨c0, hc0, rfl⟩
    by_cases h : c0.name = nm
    · rw [if_pos h]
      simp [clearChannel]
    · rw [if_neg h]
      intro hcfg
      have := hFg c0 hc0 hcfg
      rw [this] at hfg
      exact h (Option.some.inj hfg)

instance decDistinctNames (s : FocusManagerState) : Decidable (distinctNames s) :=
  List.nodupDecidable _

instance decDistinctPriorities (s : FocusManagerState) :
    Decidable (distinctPriorities s) :=
  List.nodupDecidable _

/-- Concrete scenario: observer 1 holds `Content` in the foreground of a
two-channel registry. -/
def exampleState : FocusManagerState :=
  (acquireChannel (mkFocusManager [("Dialog", 100), ("Content", 300)])
    "Content" 1 "a").1

/-- Concrete scenario: observer 2 then acquires `Dialog`; `Content` is
backgrounded. -/
def exampleState2 : FocusManagerState :=
  (acquireChannel exampleState "Dialog" 2 "b").1

lemma focusInvariant_exampleState : FocusInvariant exampleState :=
  focusInvariant_applyFocusOp (FocusOp.acquireOp "Content" 1 "a")
    (focusInvariant_mkFocusManager [("Dialog", 100), ("Content", 300)])

lemma focusInvariant_exampleState2 : FocusInvariant exampleState2 :=
  focusInvariant_applyFocusOp (FocusOp.acquireOp "Dialog" 2 "b")
    focusInvariant_exampleState

/-- Witness for C2: acquiring `Dialog` while `Content` is foreground. -/
theorem acquire_notifies_displaced_before_foreground_witness :
    ∃ pre newFg o,
      getHighestPriorityActiveChannelLocked
        (updateChannel exampleState "Dialog" (setChannelObserver 2 "b")) =
          some newFg ∧
      (getChannel (updateChannel exampleState "Dialog" (setChannelObserver 2 "b"))
        newFg.1).bind (fun c => c.observer) = some o ∧
      (acquireChannelHelper exampleState "Dialog" 2 "b").2 =
        pre ++ [(o, FocusState.foreground)] ∧
      ∀ n ∈ pre, n.2 = FocusState.none ∨ n.2 = FocusState.background :=
  @acquire_notifies_displaced_before_foreground exampleState "Dialog" 2 "b"
    { name := "Dialog", priority := 100 } (by decide) (by decide)

/-- Witness for C3: releasing the foreground `Dialog` channel while `Content`
is still active. -/
theorem release_foreground_promotes_witness :
    (∀ newFg, getHighestPriorityActiveChannelLocked
        (updateChannel exampleState2 "Dialog" clearChannel) = some newFg →
      ∃ cA, getChannel (releaseChannel exampleState2 "Dialog" 2).1 newFg.1 =
          some cA ∧
        cA.focusState = FocusState.foreground ∧
        ∃ o, cA.observer = some o ∧
          (o, FocusState.foreground) ∈ (releaseChannel exampleState2 "Dialog" 2).2.1) ∧
    (getHighestPriorityActiveChannelLocked
        (updateChannel exampleState2 "Dialog" clearChannel) = Option.none →
      ∀ c ∈ (releaseChannel exampleState2 "Dialog" 2).1,
        c.focusState ≠ FocusState.foreground) :=
  @release_foreground_promotes exampleState2 "Dialog" 2
    { name := "Dialog", priority := 100,
      focusState := FocusState.foreground, observer := some 2,
      activityId := some "b" }
    focusInvariant_exampleState2 (by decide) (by decide) (by decide)

/-- Witness for C4: releasing `Content` with its current observer. -/
theorem release_matches_observer_witness :
    ((releaseChannel exampleState "Content" 1).2.2 = true ↔
      (some 1 : Option Nat) = some 1) ∧
    ((some 1 : Option Nat) = some 1 →
      (∃ c', getChannel (releaseChannel exampleState "Content" 1).1 "Content" =
          some c' ∧
        c'.observer = Option.none ∧ c'.activityId = Option.none) ∧
      (1, FocusState.none) ∈ (releaseChannel exampleState "Content" 1).2.1) ∧
    ((some 1 : Option Nat) ≠ some 1 →
      (releaseChannel exampleState "Content" 1).1 = exampleState ∧
      (releaseChannel exampleState "Content" 1).2.1 = []) :=
  @release_matches_observer exampleState "Content" 1
    { name := "Content", priority := 300,
      focusState := FocusState.foreground, observer := some 1,
      activityId := some "a" }
    (by decide) (by decide)

/-- Witness for C6: releasing the backgrounded `Content` channel leaves the
foreground `Dialog` record untouched. -/
theorem release_nonforeground_frame_witness :
    getChannel (releaseChannel exampleState2 "Content" 1).1 "Dialog" =
      some { name := "Dialog", priority := 100,
             focusState := FocusState.foreground, observer := some 2,
             activityId := some "b" } :=
  @release_nonforeground_frame exampleState2 "Content" 1
    { name := "Content", priority := 300,
      focusState := FocusState.background, observer := some 1,
      activityId := some "a" }
    focusInvariant_exampleState2 (by decide) (by decide)
    { name := "Dialog", priority := 100,
      focusState := FocusState.foreground, observer := some 2,
      activityId := some "b" }
    (by decide) (by decide)

/-! ### SpeechSynthesizer context publication -/

/-- `SpeechSynthesizerObserver::SpeechSynthesizerState`. -/
inductive SpeechSynthesizerState where
  | playing
  | finished
deriving DecidableEq, Repr

/-- Minimal JSON value model for the context state. -/
inductive JsonValue where
  | str (s : String)
  | num (n : Int)
deriving DecidableEq, Repr

/-- Modelled from the spec: the `playerActivity` string published for a
state (`"PLAYING"` / `"FINISHED"`). -/
def playerActivityName : SpeechSynthesizerState → String
  | SpeechSynthesizerState.playing => "PLAYING"
  | SpeechSynthesizerState.finished => "FINISHED"

/-- Modelled from the spec: `SpeechSynthesizer::buildState` (implementation
file absent; the header takes `token` and `offsetInMilliseconds`, the state
is read from the agent).  The JSON object is modelled as its ordered field
list. -/
def buildState (token : String) (offsetInMilliseconds : Int)
    (state : SpeechSynthesizerState) : List (String × JsonValue) :=
  [("token", JsonValue.str token),
   ("offsetInMilliseconds", JsonValue.num offsetInMilliseconds),
   ("playerActivity", JsonValue.str (playerActivityName state))]

/-- A `ContextManager::setState` call, recording the state JSON and the
request token (`0` for proactive updates issued without a request token). -/
structure SetStateCall where
  stateJson : List (String × JsonValue)
  stateRequestToken : Nat
deriving DecidableEq, Repr

/-- Modelled from the spec: `SpeechSynthesizer::executeProvideState` — builds
the JSON with `buildState` and hands it to the context manager together with
the request token. -/
def executeProvideState (state : SpeechSynthesizerState) (stateRequestToken : Nat)
    (token : String) (offsetInMilliseconds : Int) : SetStateCall :=
  { stateJson := buildState token offsetInMilliseconds state,
    stateRequestToken := stateRequestToken }

/-- Modelled from the spec: the proactive context update performed on entering
Playing (`executePlaybackStarted`), issued without a request token. -/
def executePlaybackStartedContext (token : String) (offsetInMilliseconds : Int) :
    SetStateCall :=
  executeProvideState SpeechSynthesizerState.playing 0 token offsetInMilliseconds

/-- Modelled from the spec: the proactive context update performed on entering
Finished (`executePlaybackFinished`), issued without a request token. -/
def executePlaybackFinishedContext (token : String) (offsetInMilliseconds : Int) :
    SetStateCall :=
  executeProvideState SpeechSynthesizerState.finished 0 token offsetInMilliseconds

/-- C9: every context publication — the `provideState` reply and the
proactive updates on entering Playing and Finished — carries exactly the
fields `token`, `offsetInMilliseconds` and `playerActivity`, and
`playerActivity` is `"PLAYING"` when the reported state is Playing and
`"FINISHED"` when it is Finished. -/
theorem context_publication_shape (state : SpeechSynthesizerState)
    (stateRequestToken : Nat) (token : String) (offsetInMilliseconds : Int) :
    ((executeProvideState state stateRequestToken token
        offsetInMilliseconds).stateJson.map Prod.fst =
      ["token", "offsetInMilliseconds", "playerActivity"] ∧
     (executeProvideState state stateRequestToken token
        offsetInMilliseconds).stateJson.lookup "playerActivity" =
      some (JsonValue.str (playerActivityName state))) ∧
    ((executePlaybackStartedContext token offsetInMilliseconds).stateJson.lookup
        "playerActivity" = some (JsonValue.str "PLAYING")) ∧
    ((executePlaybackFinishedContext token offsetInMilliseconds).stateJson.lookup
        "playerActivity" = some (JsonValue.str "FINISHED")) := by
  cases state <;>
    simp [executeProvideState, executePlaybackStartedContext,
      executePlaybackFinishedContext, buildState, playerActivityName, List.lookup]

/-! ### TestMediaPlayer (`Integration/src/TestMediaPlayer.cpp`) -/

/-- `avsCommon::utils::mediaPlayer::MediaPlayerStatus`. -/
inductive MediaPlayerStatus where
  | success
  | pending
  | failure
deriving DecidableEq, Repr

/-- Callbacks a `TestMediaPlayer` delivers to its observer. -/
inductive PlaybackEvent where
  | started
  | finished
deriving DecidableEq, Repr

/-- State of `integration::test::TestMediaPlayer`: whether an observer and an
attachment reader have been set, the `m_playbackFinished` flag (set by `play`,
cleared when `onPlaybackFinished` is delivered), and the number of started
600 ms timers that have not fired yet (the timer delay is abstracted: a
pending timer may fire at any later point, or never). -/
structure TestMediaPlayer where
  hasObserver : Bool := false
  hasAttachmentReader : Bool := false
  playbackFinished : Bool := false
  pendingTimers : Nat := 0
deriving DecidableEq, Repr

namespace TestMediaPlayer

/-- `TestMediaPlayer::setSource`: stores the reader and returns `SUCCESS`. -/
def setSource (p : TestMediaPlayer) : TestMediaPlayer × MediaPlayerStatus :=
  ({ p with hasAttachmentReader := true }, MediaPlayerStatus.success)

/-- `TestMediaPlayer::setObserver`. -/
def setObserver (p : TestMediaPlayer) : TestMediaPlayer :=
  { p with hasObserver := true }

/-- `TestMediaPlayer::play`: with an observer and an attachment reader it
emits `onPlaybackStarted`, sets `m_playbackFinished`, starts a timer and
returns `SUCCESS`; otherwise it returns `FAILURE` and invokes no callback. -/
def play (p : TestMediaPlayer) :
    TestMediaPlayer × MediaPlayerStatus × List PlaybackEvent :=
  if p.hasObserver && p.hasAttachmentReader then
    ({ p with playbackFinished := true, pendingTimers := p.pendingTimers + 1 },
     MediaPlayerStatus.success, [PlaybackEvent.started])
  else (p, MediaPlayerStatus.failure, [])

/-- `TestMediaPlayer::stop`: with an observer and `m_playbackFinished` set it
emits `onPlaybackFinished`, clears the flag and returns `SUCCESS`; otherwise
it returns `FAILURE` and invokes no callback. -/
def stop (p : TestMediaPlayer) :
    TestMediaPlayer × MediaPlayerStatus × List PlaybackEvent :=
  if p.hasObserver && p.playbackFinished then
    ({ p with playbackFinished := false }, MediaPlayerStatus.success,
     [PlaybackEvent.finished])
  else (p, MediaPlayerStatus.failure, [])

/-- The timer callback started by `play`: if `m_playbackFinished` is still
set it emits `onPlaybackFinished` and clears the flag. -/
def timerFire (p : TestMediaPlayer) : TestMediaPlayer × List PlaybackEvent :=
  if p.pendingTimers = 0 then (p, [])
  else if p.playbackFinished then
    ({ p with playbackFinished := false, pendingTimers := p.pendingTimers - 1 },
     [PlaybackEvent.finished])
  else ({ p with pendingTimers := p.pendingTimers - 1 }, [])

end TestMediaPlayer

/-- An externally observable step on a `TestMediaPlayer`: the public calls
plus the asynchronous firing of a started timer. -/
inductive MediaPlayerOp where
  | setObserverOp
  | setSourceOp
  | playOp
  | stopOp
  | timerFireOp

/-- Apply one step, collecting the observer callbacks it emits. -/
def applyMediaPlayerOp (p : TestMediaPlayer) :
    MediaPlayerOp → TestMediaPlayer × List PlaybackEvent
  | MediaPlayerOp.setObserverOp => (p.setObserver, [])
  | MediaPlayerOp.setSourceOp => ((p.setSource).1, [])
  | MediaPlayerOp.playOp => ((p.play).1, (p.play).2.2)
  | MediaPlayerOp.stopOp => ((p.stop).1, (p.stop).2.2)
  | MediaPlayerOp.timerFireOp => p.timerFire

/-- Run a sequence of steps, concatenating the emitted callbacks in order. -/
def runMediaPlayerOps (p : TestMediaPlayer) :
    List MediaPlayerOp → TestMediaPlayer × List PlaybackEvent
  | [] => (p, [])
  | op :: rest =>
    let r := applyMediaPlayerOp p op
    let rr := runMediaPlayerOps r.1 rest
    (rr.1, r.2 ++ rr.2)

/-- Count occurrences of one callback kind. -/
def countEvent (evs : List PlaybackEvent) (e : PlaybackEvent) : Nat :=
  evs.countP (fun x => x == e)

/-- In any run, `onPlaybackFinished` callbacks never outnumber the pending
flag plus the `onPlaybackStarted` callbacks. -/
lemma finished_le_flag_add_started (ops : List MediaPlayerOp)
    (p : TestMediaPlayer) :
    countEvent (runMediaPlayerOps p ops).2 PlaybackEvent.finished ≤
      (if p.playbackFinished then 1 else 0) +
      countEvent (runMediaPlayerOps p ops).2 PlaybackEvent.started := by
  induction ops generalizing p with
  | nil => simp [runMediaPlayerOps, countEvent]
  | cons op rest ih =>
    cases op with
    | setObserverOp =>
      have h := ih p.setObserver
      simp only [runMediaPlayerOps, applyMediaPlayerOp] at h ⊢
      simpa [TestMediaPlayer.setObserver, countEvent] using h
    | setSourceOp =>
      have h := ih (p.setSource).1
      simp only [runMediaPlayerOps, applyMediaPlayerOp] at h ⊢
      simpa [TestMediaPlayer.setSource, countEvent] using h
    | playOp =>
      by_cases hc : (p.hasObserver && p.hasAttachmentReader) = true
      · have h := ih ({ p with playbackFinished := true, pendingTimers := p.pendingTimers + 1 })
        simp only [runMediaPlayerOps, applyMediaPlayerOp, TestMediaPlayer.play,
          hc, if_true] at h ⊢
        simp only [countEvent, List.countP_append] at h ⊢
        simp [countEvent] at h ⊢
        omega
      · have h := ih p
        simp only [runMediaPlayerOps, applyMediaPlayerOp, TestMediaPlayer.play,
          hc, if_false] at h ⊢
        simpa [countEvent] using h
    | stopOp =>
      by_cases hc : (p.hasObserver && p.playbackFinished) = true
      · have h := ih { p with playbackFinished := false }
        have hflag : p.playbackFinished = true := by
          rcases Bool.and_eq_true_iff.mp hc with ⟨h1, h2⟩
          exact h2
        simp only [runMediaPlayerOps, applyMediaPlayerOp, TestMediaPlayer.stop,
          hc, if_true] at h ⊢
        simp only [countEvent, List.countP_append] at h ⊢
        simp [countEvent, hflag] at h ⊢
        omega
      · have h := ih p
        simp only [runMediaPlayerOps, applyMediaPlayerOp, TestMediaPlayer.stop,
          hc, if_false] at h ⊢
        simpa [countEvent] using h
    | timerFireOp =>
      by_cases h0 : p.pendingTimers = 0
      · have h := ih p
        simp only [runMediaPlayerOps, applyMediaPlayerOp, TestMediaPlayer.timerFire,
          h0, if_true] at h ⊢
        simpa [countEvent] using h
      · by_cases hf : p.playbackFinished = true
        · have h := ih ({ p with playbackFinished := false, pendingTimers := p.pendingTimers - 1 })
          simp only [runMediaPlayerOps, applyMediaPlayerOp,
            TestMediaPlayer.timerFire, h0, if_false, hf, if_true] at h ⊢
          simp only [countEvent, List.countP_append] at h ⊢
          simp [countEvent, hf] at h ⊢
          omega
        · have h := ih { p with pendingTimers := p.pendingTimers - 1 }
          simp only [runMediaPlayerOps, applyMediaPlayerOp,
            TestMediaPlayer.timerFire, h0, if_false, hf] at h ⊢
          simpa [countEvent] using h

/-- C10: over every call sequence from the initial `TestMediaPlayer` state, at
most one `onPlaybackFinished` is delivered per successful `play` (whether by
the timer or by `stop`, never both): finished callbacks never outnumber
started ones.  A `play` without observer or attachment reader returns
`FAILURE` with no callback, and a `stop` when no playback is pending returns
`FAILURE` with no callback. -/
theorem testMediaPlayer_at_most_one_finished_per_play
    (ops : List MediaPlayerOp) (p : TestMediaPlayer) :
    (countEvent (runMediaPlayerOps {} ops).2 PlaybackEvent.finished ≤
      countEvent (runMediaPlayerOps {} ops).2 PlaybackEvent.started) ∧
    TestMediaPlayer.stop { p with playbackFinished := false } =
      ({ p with playbackFinished := false }, MediaPlayerStatus.failure, []) ∧
    TestMediaPlayer.play { p with hasObserver := false } =
      ({ p with hasObserver := false }, MediaPlayerStatus.failure, []) ∧
    TestMediaPlayer.play { p with hasAttachmentReader := false } =
      ({ p with hasAttachmentReader := false }, MediaPlayerStatus.failure, []) := by
  refine ⟨?_, ?_, ?_, ?_⟩
  · have h := finished_le_flag_add_started ops {}
    simpa using h
  · simp [TestMediaPlayer.stop]
  · simp [TestMediaPlayer.play]
  · simp [TestMediaPlayer.play]

end AvsDeviceSdk
